import Mathlib

/-!
Verification of the CRLB estimation engine of Chem-I-Calc
(`src/chemicalc/crlb.py`, `src/chemicalc/utils.py`).

Numbers: NumPy floats are modelled by exact rationals `ℚ`; the claims under
study are about exact arithmetic (chunk-sum rearrangement, masking, zeroing,
comparisons against literal constants), not about rounding.  Matrices are
total maps over index types; NaN-capable table entries are `Option ℚ`
(`none` = NaN).
-/

namespace ChemICalc

/-! ## Fisher-matrix accumulation (`calc_crlb`)

`crlb.py` lines 49-61 and `utils.py` lines 286-298 (the two copies are
textually identical for this part).  The gradient block `grad` is a
labels × pixels array, `snr2` the concatenated squared SNR vector. -/

/-- Entry `[i,j]` of the unchunked product
`(grad.dot(np.diag(snr2))).dot(grad.T)` (the `chunk_size is None` branch):
`Σ_p grad[i,p] * snr2[p] * grad[j,p]` over all `npix` pixels. -/
def fisherFull (grad : ℕ → ℕ → ℚ) (snr2 : ℕ → ℚ) (npix : ℕ) (i j : ℕ) : ℚ :=
  ∑ p in Finset.range npix, grad i p * snr2 p * grad j p

/-- Chunk count `n_chunks = int(np.ceil(grad.shape[1] / chunk_size))`: ceiling division of
the pixel count by the (positive integer) chunk size. -/
def nChunks (npix c : ℕ) : ℕ :=
  (npix + c - 1) / c

/-- Entry `[i,j]` of the chunked accumulation loop: for each chunk `k`,
`grad_tmp = grad[:, k*c : (k+1)*c]` (NumPy slices clamp at `npix`, hence the
`min`), `snr2_tmp = np.diag(snr2[k*c : (k+1)*c])`, and
`fisher_mat += (grad_tmp.dot(snr2_tmp)).dot(grad_tmp.T)`, starting from
`np.zeros`.  Entry-wise the `k`-th summand is
`Σ_{p ∈ chunk k} grad[i,p] * snr2[p] * grad[j,p]`. -/
def fisherChunked (grad : ℕ → ℕ → ℚ) (snr2 : ℕ → ℚ) (npix c : ℕ) (i j : ℕ) : ℚ :=
  ∑ k in Finset.range (nChunks npix c),
    ∑ p in Finset.Ico (k * c) (min ((k + 1) * c) npix), grad i p * snr2 p * grad j p

/-! ## Degenerate-row regularization (`calc_crlb`)

`crlb.py` lines 58-61 / `utils.py` lines 295-298:
```
diag_val = np.abs(np.diag(fisher_mat)) < 1.0
fisher_mat[diag_val, :] = 0.0
fisher_mat[:, diag_val] = 0.0
fisher_mat[diag_val, diag_val] = 10.0 ** -6
```
-/

/-- The mask `diag_val`: labels whose diagonal Fisher entry has
absolute value strictly below `1.0`. -/
def diagFlag (F : ℕ → ℕ → ℚ) (i : ℕ) : Prop :=
  |F i i| < 1

instance (F : ℕ → ℕ → ℚ) (i : ℕ) : Decidable (diagFlag F i) := by
  unfold diagFlag; infer_instance

/-- Row write `fisher_mat[diag_val, :] = 0.0`: zero every flagged row. -/
def zeroRowsStep (flag : ℕ → Prop) [DecidablePred flag] (F : ℕ → ℕ → ℚ) :
    ℕ → ℕ → ℚ :=
  fun i j => if flag i then 0 else F i j

/-- Column write `fisher_mat[:, diag_val] = 0.0`: zero every flagged column. -/
def zeroColsStep (flag : ℕ → Prop) [DecidablePred flag] (F : ℕ → ℕ → ℚ) :
    ℕ → ℕ → ℚ :=
  fun i j => if flag j then 0 else F i j

/-- Diagonal write `fisher_mat[diag_val, diag_val] = 10.0 ** -6`: paired boolean fancy
indexing writes the diagonal entries `(i,i)` of the flagged labels. -/
def setDiagStep (flag : ℕ → Prop) [DecidablePred flag] (c : ℚ)
    (F : ℕ → ℕ → ℚ) : ℕ → ℕ → ℚ :=
  fun i j => if i = j ∧ flag i then c else F i j

/-- The full regularization step applied to the accumulated Fisher matrix,
with the mask computed from the matrix before any mutation (NumPy evaluates
`diag_val` once, before the three writes). -/
def regularize (F : ℕ → ℕ → ℚ) : ℕ → ℕ → ℚ :=
  setDiagStep (diagFlag F) (1 / 1000000)
    (zeroColsStep (diagFlag F) (zeroRowsStep (diagFlag F) F))

/-! ## Prior incorporation (`calc_crlb`)

`utils.py` lines 303-315 (the working copy; `crlb.py` lines 68-84 add
validation, modelled separately below).  The priors dict is an association
list in iteration order; Python dict keys are unique, which is the `Nodup`
hypothesis on the keys.  Labels are indices `Fin L` into the reference label
set and `teff` is the index of the `"Teff"` label, whose prior is rescaled
by `1/100`. -/

/-- Zero-prior branch: `fisher_df.loc[label, :] = 0`,
`fisher_df.loc[:, label] = 0`, `fisher_df.loc[label, label] = 1e-6`. -/
def zeroPriorStep {L : ℕ} (l : Fin L) (F : Fin L → Fin L → ℚ) :
    Fin L → Fin L → ℚ :=
  fun i j =>
    if i = l ∧ j = l then 1 / 1000000
    else if i = l ∨ j = l then 0
    else F i j

/-- Nonzero-prior branch: `fisher_df.loc[label, label] += prior ** (-2)`. -/
def addPriorStep {L : ℕ} (l : Fin L) (pr : ℚ) (F : Fin L → Fin L → ℚ) :
    Fin L → Fin L → ℚ :=
  fun i j => if i = l ∧ j = l then F i j + (pr ^ 2)⁻¹ else F i j

/-- One iteration of the `for label in priors` loop: `None` priors are
skipped, a `Teff` prior is first divided by 100, a (scaled) zero prior
hard-excludes the label, any other prior adds its inverse square to the
diagonal. -/
def applyOnePrior {L : ℕ} (teff : Fin L) (F : Fin L → Fin L → ℚ)
    (e : Fin L × Option ℚ) : Fin L → Fin L → ℚ :=
  match e.2 with
  | none => F
  | some pr0 =>
    let pr := if e.1 = teff then pr0 / 100 else pr0
    if pr = 0 then zeroPriorStep e.1 F else addPriorStep e.1 pr F

/-- The whole prior loop, over the dict entries in iteration order. -/
def applyPriors {L : ℕ} (teff : Fin L) (F : Fin L → Fin L → ℚ)
    (ps : List (Fin L × Option ℚ)) : Fin L → Fin L → ℚ :=
  ps.foldl (applyOnePrior teff) F

/-- First Penrose equation `F·P·F = F`, written entry-wise.  `np.linalg.pinv`
returns the Moore-Penrose pseudo-inverse, which satisfies it; it is the only
property of the pseudo-inverse the zero-prior claim needs. -/
def penrose1 {L : ℕ} (F P : Fin L → Fin L → ℚ) : Prop :=
  ∀ i j, (∑ a, ∑ b, F i a * P a b * F b j) = F i j

/-- Row and column `l` of `F` are zero apart from the diagonal entry `1e-6`
(the shape produced by hard-excluding label `l`). -/
def excludedAt {L : ℕ} (l : Fin L) (F : Fin L → Fin L → ℚ) : Prop :=
  (∀ j, F l j = if j = l then 1 / 1000000 else 0) ∧
    (∀ i, F i l = if i = l then 1 / 1000000 else 0)

/-- Concrete data for the C3 witness: a 2-label system, `Teff` is label 1,
label 0 gets a zero prior, label 1 a nonzero prior. -/
def c3F : Fin 2 → Fin 2 → ℚ := ![![4, 3], ![3, 9]]

def c3ps : List (Fin 2 × Option ℚ) := [(0, some 0), (1, some 5)]

/-- The pseudo-inverse of `applyPriors 1 c3F c3ps = [[1e-6, 0], [0, 409]]`. -/
def c3P : Fin 2 → Fin 2 → ℚ := ![![1000000, 0], ![0, 1 / 409]]

/-! ## `sort_crlb` (`crlb.py` lines 96-126 = `utils.py` lines 327-356)

A CRLB table is a list of rows in index order; each row is a label together
with its entries across the table columns.  Entries are `Option ℚ`:
`none` models NaN.  The embedding carries whole rows through the
`valid_ele` / `.loc` steps, which matches the pandas label-based lookups
whenever the labels are unique (an invariant of the data model; theorems that
need it take a `Nodup` hypothesis). -/

/-- One CRLB table row: label and per-column entries (`none` = NaN). -/
abbrev TableRow := String × List (Option ℚ)

/-- A CRLB table: rows in index order. -/
abbrev Table := List TableRow

/-- The elementwise mask `crlb > cutoff`: NaN compares `False` in Python, so
`none` is never flagged. -/
def pyGtCut (cutoff : ℚ) : Option ℚ → Bool
  | some v => cutoff < v
  | none => false

/-- Masking write `crlb[crlb > cutoff] = np.NaN` on a single entry. -/
def maskEntry (cutoff : ℚ) (x : Option ℚ) : Option ℚ :=
  if pyGtCut cutoff x then none else x

def maskRow (cutoff : ℚ) (r : List (Option ℚ)) : List (Option ℚ) :=
  r.map (maskEntry cutoff)

def maskTable (cutoff : ℚ) (t : Table) : Table :=
  t.map (fun row => (row.1, maskRow cutoff row.2))

/-- The in-place mutation of the table of the caller performed by lines 106-108:
save `crlb[:3]`, set entries above the cutoff to NaN everywhere, restore the
first three rows. -/
def sortCrlbMutate (cutoff : ℚ) (t : Table) : Table :=
  t.take 3 ++ (maskTable cutoff t).drop 3

/-- Python `==` restricted to the two runtime types that line 113
(`sort_by == list(crlb.columns)`) can compare: a `str` is never equal to a
`list`, and there is no coercion between them. -/
inductive PyVal where
  | pystr (s : String)
  | pylist (l : List String)

def pyEq : PyVal → PyVal → Bool
  | .pystr a, .pystr b => a == b
  | .pylist a, .pylist b => a == b
  | _, _ => false

/-- Number of NaN entries of column `c` over the whole (mutated) table:
one column of `np.sum(pd.isna(crlb))`. -/
def colNaCount (t : Table) (c : ℕ) : ℕ :=
  t.countP (fun row => (row.2.getD c none).isNone)

/-- First index of the minimum of a nonempty list (`idxmin` returns the first
occurrence). -/
def argminAux : List ℕ → ℕ → ℕ → ℕ → ℕ
  | [], _, b, _ => b
  | x :: xs, i, b, bv => if x < bv then argminAux xs (i + 1) i x
                         else argminAux xs (i + 1) b bv

def argminIdx : List ℕ → ℕ
  | [] => 0
  | x :: xs => argminAux xs 1 0 x

/-- Resolution of `sort_by` (lines 110-116).  `"default"` picks
`np.sum(pd.isna(crlb)).idxmin()`, the (first) column with fewest NaNs;
otherwise the source tests `sort_by == list(crlb.columns)` — the string
against the list itself — and trips `assert False` when that is `False`.
Columns are identified positionally; `colNames` are the pandas column
labels. -/
def resolveSortBy (sortBy : String) (colNames : List String) (t : Table) :
    Except String ℕ :=
  if sortBy = "default" then
    .ok (argminIdx ((List.range colNames.length).map (colNaCount t)))
  else
    if pyEq (.pystr sortBy) (.pylist colNames) then .ok (colNames.indexOf sortBy)
    else .error (sortBy ++ " not in CR_Gradients_File")

/-- Row minimum `np.min(crlb[3:], axis=1)` for one row: NumPy dispatches to
`DataFrame.min(axis=1)`, which skips NaN and returns NaN for an all-NaN
row. -/
def skipnaMin : List (Option ℚ) → Option ℚ
  | [] => none
  | none :: xs => skipnaMin xs
  | some v :: xs =>
    match skipnaMin xs with
    | none => some v
    | some m => some (min v m)

/-- The retention test of line 119 for a row beyond the first three:
`np.min(row) < cutoff`; a NaN minimum compares `False`. -/
def rowRetained (cutoff : ℚ) (r : List (Option ℚ)) : Bool :=
  match skipnaMin r with
  | some m => m < cutoff
  | none => false

/-- Ascending order on sort keys with NaN placed last
(the `sort_values` default puts NaN last). -/
def keyLe : Option ℚ → Option ℚ → Bool
  | _, none => true
  | none, some _ => false
  | some a, some b => a ≤ b

/-- Sorting step `.sort_values(sort_by_index)` on the retained rows: sort by the chosen
column, ascending, NaN last.  the default pandas sort kind does not specify the
order of ties; the embedding fixes a merge sort, and no claim below depends
on tie order. -/
def sortRows (col : ℕ) (rows : Table) : Table :=
  rows.mergeSort (fun r s => keyLe (r.2.getD col none) (s.2.getD col none))

/-- The labels `valid_ele` minus the protected prefix (line 119): the rows beyond the
first three of the mutated table whose (NaN-skipping) minimum is below the
cutoff. -/
def retainedRows (cutoff : ℚ) (m : Table) : Table :=
  (m.drop 3).filter (fun row => rowRetained cutoff row.2)

/-- The function `sort_crlb`.  Returns the result (or the `AssertionError` of line 116)
together with the post-call state of the table of the caller, which the function
mutates in place.  The mutation (lines 107-108) happens before the
`sort_by` branch, so it is visible on the error path too. -/
def sortCrlb (t : Table) (cutoff : ℚ) (sortBy : String)
    (colNames : List String) : Except String Table × Table :=
  match resolveSortBy sortBy colNames (sortCrlbMutate cutoff t) with
  | .error e => (.error e, sortCrlbMutate cutoff t)
  | .ok col =>
    (.ok ((sortCrlbMutate cutoff t).take 3 ++
        sortRows col (retainedRows cutoff (sortCrlbMutate cutoff t))),
      sortCrlbMutate cutoff t)

/-- Entry of a table at row `i`, column `c` (`none` beyond the bounds). -/
def entryAt (t : Table) (i c : ℕ) : Option ℚ :=
  ((t.getD i ("", [])).2).getD c none

/-- Concrete table for the C4 counterexample and witnesses: three protected
rows and one abundance row `Fe` with a single column. -/
def c4T : Table :=
  [("Teff", [some 10]), ("logg", [some 10]), ("rv", [some 10]), ("Fe", [some 1])]

/-- Concrete table for the C10 counterexample: the `Fe` precision 3 exceeds
the cutoff 2 used there. -/
def c10T : Table :=
  [("Teff", [some 10]), ("logg", [some 10]), ("rv", [some 10]), ("Fe", [some 3])]

/-! ## Priors validation in `crlb.py` (lines 66-67)

`if not isinstance(priors, (None, dict)): raise TypeError(...)`.  The second
argument tuple contains the *value* `None`, which is not a type. -/

/-- One entry of an `isinstance` classinfo tuple: either an actual type
(identified by its name) or a non-type object such as the value `None`. -/
inductive PyClassinfo where
  | cls (name : String)
  | notAType

/-- Python `isinstance(x, tup)`: the tuple entries are examined left to
right; a match returns `True` immediately, exhaustion returns `False`, and an
entry that is not a type raises `TypeError` before any later entry is
examined.  `typeName` is the runtime type of `x`. -/
def pyIsinstance (typeName : String) : List PyClassinfo → Except String Bool
  | [] => .ok false
  | .notAType :: _ => .error "isinstance() arg 2 must be a type or tuple of types"
  | .cls c :: rest => if typeName = c then .ok true else pyIsinstance typeName rest

/-- The guard of `crlb.py` lines 66-67 as a function of the runtime type of
`priors`: evaluate `isinstance(priors, (None, dict))` and raise the
`TypeError` of line 67 when it returns `False`. -/
def priorsGuardCrlbPy (typeName : String) : Except String Unit :=
  match pyIsinstance typeName [.notAType, .cls "dict"] with
  | .error e => .error e
  | .ok true => .ok ()
  | .ok false => .error "priors must be None or a dictionary of \x7blabel: prior\x7d"

/-! ## The finite-difference gradient `calc_gradient` (`utils.py` lines
196-246), symmetric and asymmetric modes

Spectra rows and label values are exact rationals; the derivative entries
live in `ExtQ`, rationals extended with the two IEEE infinities (signed zero
is collapsed onto `fin 0`: only its magnitude matters here).  `spectra` is a
2D NumPy array, so all its rows have the same pixel count; the label table
is assumed shaped for the selected mode (its 2D slices line up), which the
per-label `getD` reads reflect. -/

inductive ExtQ where
  | fin (q : ℚ)
  | negInf
  | posInf
deriving DecidableEq

/-- IEEE division of a finite value by a possibly infinite one: division by
an infinity gives (signed) zero; division by exact zero is the error case
(`none`), which the code avoids by replacing zero steps first. -/
def divByExt (a : ℚ) : ExtQ → Option ExtQ
  | .fin d => if d = 0 then none else some (.fin (a / d))
  | .negInf => some (.fin 0)
  | .posInf => some (.fin 0)

/-- Step sizes `dx = np.diag(labels.iloc[:, 1::2].values - labels.iloc[:, 2::2].values)`:
the `i`-th step size is `labels[i, 2i+1] - labels[i, 2i+2]` (value at `+δ`
minus value at `-δ`). -/
def rawDx (labelVals : List (List ℚ)) : List ℚ :=
  (List.range labelVals.length).map (fun i =>
    ((labelVals.getD i []).getD (2 * i + 1) 0)
      - ((labelVals.getD i []).getD (2 * i + 2) 0))

/-- Scaling writes `dx[labels.index == "Teff"] /= 100` then `dx[labels.index == "rv"] /= 10`,
applied label-wise. -/
def scaleDx (labelNames : List String) (dx : List ℚ) : List ℚ :=
  (List.zip labelNames dx).map (fun p =>
    let d1 := if p.1 = "Teff" then p.2 / 100 else p.2
    if p.1 = "rv" then d1 / 10 else d1)

/-- Zero-step replacement `dx[dx == 0] = -np.inf` (line 245). -/
def replaceZeroDx (dx : List ℚ) : List ExtQ :=
  dx.map (fun d => if d = 0 then ExtQ.negInf else ExtQ.fin d)

/-- Differences `grad = spectra[1::2] - spectra[2::2]`: row `i` is the elementwise
difference of spectra `2i+1` and `2i+2`. -/
def gradRows (spectra : List (List ℚ)) (n : ℕ) : List (List ℚ) :=
  (List.range n).map (fun i =>
    (List.zip (spectra.getD (2 * i + 1) []) (spectra.getD (2 * i + 2) [])).map
      (fun p => p.1 - p.2))

/-- One row of `grad / dx[:, np.newaxis]`: every entry of the row divided by
the step of that label; `none` would signal a division by exact zero. -/
def divGradRow (r : List ℚ) (d : ExtQ) : Option (List ExtQ) :=
  r.mapM (fun a => divByExt a d)

/-- Asymmetric step sizes for the `nspectra - 1 == nlabels` case (line 232):
`np.diag(labels.iloc[:, 0].values - labels.iloc[:, 1:].values)` — the `i`-th
step is `labels[i, 0] - labels[i, 1+i]` (reference value minus the value of
the single perturbed spectrum of label `i`). -/
def rawDxAsym1 (labelVals : List (List ℚ)) : List ℚ :=
  (List.range labelVals.length).map (fun i =>
    ((labelVals.getD i []).getD 0 0) - ((labelVals.getD i []).getD (1 + i) 0))

/-- Asymmetric step sizes for the `nspectra - 1 == 2*nlabels` case (line
235): `np.diag(labels.iloc[:, 0].values - labels.iloc[:, 1::2].values)` —
the `i`-th step is `labels[i, 0] - labels[i, 2i+1]`. -/
def rawDxAsym2 (labelVals : List (List ℚ)) : List ℚ :=
  (List.range labelVals.length).map (fun i =>
    ((labelVals.getD i []).getD 0 0) - ((labelVals.getD i []).getD (2 * i + 1) 0))

/-- Asymmetric numerators `grad = spectra[0] - spectra[1:]` (line 233): row
`i` is the reference spectrum minus spectrum `1+i`, elementwise. -/
def gradRowsAsym1 (spectra : List (List ℚ)) (n : ℕ) : List (List ℚ) :=
  (List.range n).map (fun i =>
    (List.zip (spectra.getD 0 []) (spectra.getD (1 + i) [])).map
      (fun p => p.1 - p.2))

/-- Asymmetric numerators `grad = spectra[0] - spectra[1::2]` (line 236):
row `i` is the reference spectrum minus spectrum `2i+1`, elementwise. -/
def gradRowsAsym2 (spectra : List (List ℚ)) (n : ℕ) : List (List ℚ) :=
  (List.range n).map (fun i =>
    (List.zip (spectra.getD 0 []) (spectra.getD (2 * i + 1) [])).map
      (fun p => p.1 - p.2))

/-- The value of `skip` (lines 213-216): 1 when the reference spectrum is
included at index 0, else 0. -/
def skipOf (ref_included : Bool) : ℕ :=
  if ref_included then 1 else 0

/-- The tail shared by every branch (lines 243-246): `Teff`/`rv` scaling of
the step sizes, the zero-step replacement by `-inf`, and the division
`grad / dx[:, np.newaxis]`.  The `Option` is `none` only if a division by
exact zero occurred, which it never does since zero steps were replaced. -/
def gradFinish (labelNames : List String) (grad : List (List ℚ))
    (dx : List ℚ) : Option (List (List ExtQ)) :=
  (List.zip grad (replaceZeroDx (scaleDx labelNames dx))).mapM
    (fun p => divGradRow p.1 p.2)

/-- The function `calc_gradient` (`utils.py` lines 196-246).  Symmetric mode
checks `nspectra - skip != 2*nlabels` over the integers (lines 217-222) and
then slices rows `1::2` and `2::2` regardless of `skip`; when `nspectra` is
even and positive those two slices have different row counts and the NumPy
subtraction raises a broadcast `ValueError` — the second guard — which is
exactly the `ref_included=False` case with at least one label.  Asymmetric
mode requires the reference spectrum (lines 226-230) and dispatches on
`nspectra - 1 == nlabels` or `== 2*nlabels` (lines 231-242).  All branches
end in the shared scaling/replacement/division tail. -/
def calc_gradient (spectra : List (List ℚ)) (labelNames : List String)
    (labelVals : List (List ℚ)) (symmetric ref_included : Bool) :
    Except String (Option (List (List ExtQ))) :=
  if symmetric then
    if (spectra.length : ℤ) - (skipOf ref_included) ≠ 2 * labelNames.length then
      .error "GradientError: nspectra != 2*nlabel"
    else if spectra.length / 2 ≠ (spectra.length - 1) / 2 then
      .error "ValueError: operands could not be broadcast together"
    else
      .ok (gradFinish labelNames (gradRows spectra labelNames.length)
        (rawDx labelVals))
  else
    if ref_included = false then
      .error "GradientError: reference spectra must be included at index 0"
    else if (spectra.length : ℤ) - 1 = labelNames.length then
      .ok (gradFinish labelNames (gradRowsAsym1 spectra labelNames.length)
        (rawDxAsym1 labelVals))
    else if (spectra.length : ℤ) - 1 = 2 * labelNames.length then
      .ok (gradFinish labelNames (gradRowsAsym2 spectra labelNames.length)
        (rawDxAsym2 labelVals))
    else
      .error "GradientError: nspectra != nlabel or 2*nlabel"

/-- Whether the mode selection and shape checks of `calc_gradient` pass, as
a function of the spectrum and label counts: on these inputs the function
reaches the shared scaling/replacement/division tail and returns a
derivative table. -/
def gradChecksPass (nspectra nlabels : ℕ) (symmetric ref_included : Bool) :
    Bool :=
  if symmetric then
    decide ((nspectra : ℤ) - (skipOf ref_included) = 2 * nlabels)
      && decide (nspectra / 2 = (nspectra - 1) / 2)
  else
    ref_included
      && (decide ((nspectra : ℤ) - 1 = nlabels)
        || decide ((nspectra : ℤ) - 1 = 2 * nlabels))

/-- The raw step sizes the selected branch of `calc_gradient` computes. -/
def gradDx (spectra : List (List ℚ)) (labelNames : List String)
    (labelVals : List (List ℚ)) (symmetric : Bool) : List ℚ :=
  if symmetric then rawDx labelVals
  else if (spectra.length : ℤ) - 1 = labelNames.length then rawDxAsym1 labelVals
  else rawDxAsym2 labelVals

/-- The numerator rows the selected branch of `calc_gradient` computes. -/
def gradNum (spectra : List (List ℚ)) (labelNames : List String)
    (symmetric : Bool) : List (List ℚ) :=
  if symmetric then gradRows spectra labelNames.length
  else if (spectra.length : ℤ) - 1 = labelNames.length then
    gradRowsAsym1 spectra labelNames.length
  else gradRowsAsym2 spectra labelNames.length

/-- Concrete input for C7: one label `"X"` whose `+δ` and `-δ` values are
both 7 (zero step), reference plus two perturbed spectra of two pixels. -/
def c7spectra : List (List ℚ) := [[0, 0], [1, 2], [0, 0]]

def c7names : List String := ["X"]

def c7vals : List (List ℚ) := [[5, 7, 7]]

/-! ## The instrument loop of `calc_crlb` (`crlb.py` lines 31-45 /
`utils.py` lines 271-282) as a state machine over the reference object

The per-instrument gradient data of the reference is a map from instrument name
to a matrix (rows aligned with the reference labels).  `zero_gradients`
lives in `chemicalc/reference_spectra.py`, which is not part of the sources
under study; it is modelled from the spec. -/

/-- An `InstConfig` as the loop uses it: a name and a per-pixel SNR list. -/
structure Inst where
  name : String
  snr : List ℚ

/-- A `ReferenceSpectra` as the loop uses it: the ordered label index and the
per-instrument gradient matrices (a Python dict, modelled as a total map to
`Option`). -/
structure RefSp where
  labels : List String
  gradients : String → Option (List (List ℚ))

/-- The constant `alpha_el` (`utils.py` line 14). -/
def alpha_el : List String := ["O", "Ne", "Mg", "Si", "S", "Ar", "Ca", "Ti"]

/-- Modelled from the spec: `reference.zero_gradients(name, labels)` — the
alpha-handling of the spec says the rows of the listed labels in the stored gradient
matrix for instrument `name` are zeroed in place ("the individual-element
rows for that set are zeroed", "temporarily zeroing rows").  The function
itself is defined in `chemicalc/reference_spectra.py`, outside the sources
under study. -/
def zero_gradients (ref : RefSp) (name : String) (zlabels : List String) :
    RefSp :=
  { ref with
    gradients := fun k =>
      if k = name then
        (ref.gradients name).map (fun mat =>
          (List.zip ref.labels mat).map (fun p =>
            if p.1 ∈ zlabels then List.replicate p.2.length 0 else p.2))
      else ref.gradients k }

/-- Lines 39-42: under `use_alpha` the rows of the individual alpha elements are
zeroed; otherwise, if `alpha` is a label, the `alpha` row is zeroed; else the
reference is untouched. -/
def alphaAdjust (useAlpha : Bool) (ref : RefSp) (name : String) : RefSp :=
  if useAlpha then zero_gradients ref name alpha_el
  else if "alpha" ∈ ref.labels then zero_gradients ref name ["alpha"]
  else ref

/-- The body of `for instrument in instruments` (`crlb.py` lines 31-45),
accumulating `grad_list` and `snr_list`: missing gradient data raises
`KeyError` (line 35); `grad_backup` copies the entry (line 36); requesting
alpha without an `alpha` label raises `ValueError` (lines 37-38); the
alpha-dependent `zero_gradients` mutation (lines 39-42); the reads (lines
43-44); and the restoration `reference.gradients[name] = grad_backup`
(line 45).  Returns the loop outcome together with the reference state at
exit, on the success path and on every error path. -/
def calcCrlbLoop (useAlpha : Bool) (ref : RefSp) (insts : List Inst)
    (gradAcc : List (List (List ℚ))) (snrAcc : List (List ℚ)) :
    Except String (List (List (List ℚ)) × List (List ℚ)) × RefSp :=
  match insts with
  | [] => (.ok (gradAcc, snrAcc), ref)
  | inst :: rest =>
    match ref.gradients inst.name with
    | none =>
      (.error ("Reference star does not have gradients for " ++ inst.name), ref)
    | some backup =>
      if useAlpha ∧ "alpha" ∉ ref.labels then
        (.error "alpha not included in reference file", ref)
      else
        calcCrlbLoop useAlpha
          { alphaAdjust useAlpha ref inst.name with
            gradients := fun k =>
              if k = inst.name then some backup
              else (alphaAdjust useAlpha ref inst.name).gradients k }
          rest
          (gradAcc ++ [((alphaAdjust useAlpha ref inst.name).gradients
            inst.name).getD []])
          (snrAcc ++ [inst.snr])

/-- The total value of `grad_row / dx_i` when the step is not exact zero:
division by an infinity gives zeros, division by a nonzero rational divides
entrywise. -/
def divGradRowTotal (r : List ℚ) : ExtQ → List ExtQ
  | .fin q => r.map (fun a => ExtQ.fin (a / q))
  | .negInf => r.map (fun _ => ExtQ.fin 0)
  | .posInf => r.map (fun _ => ExtQ.fin 0)

lemma npix_le_nChunks_mul (npix c : ℕ) (hc : 0 < c) : npix ≤ nChunks npix c * c := by
  unfold nChunks
  have h1 : (npix + c - 1) / c * c + (npix + c - 1) % c = npix + c - 1 := by
    rw [mul_comm]; exact Nat.div_add_mod _ _
  have h2 := Nat.mod_lt (npix + c - 1) hc
  omega

lemma chunk_sum_eq (f : ℕ → ℚ) (c N m : ℕ) :
    (∑ k in Finset.range m, ∑ p in Finset.Ico (k * c) (min ((k + 1) * c) N), f p)
      = ∑ p in Finset.range (min (m * c) N), f p := by
  induction m with
  | zero => simp
  | succ m ih =>
    rw [Finset.sum_range_succ, ih]
    by_cases h : m * c ≤ N
    · have h1 : min (m * c) N = m * c := min_eq_left h
      have h2 : m * c ≤ min ((m + 1) * c) N := by
        have : m * c ≤ (m + 1) * c := Nat.mul_le_mul_right c (Nat.le_succ m)
        exact le_min this h
      rw [h1, Finset.range_eq_Ico]
      exact Finset.sum_Ico_consecutive f (Nat.zero_le _) h2
    · have h1 : min (m * c) N = N := min_eq_right (le_of_not_le h)
      have h2 : min ((m + 1) * c) N = N := by
        have : N ≤ (m + 1) * c := by
          have : m * c ≤ (m + 1) * c := Nat.mul_le_mul_right c (Nat.le_succ m)
          omega
        exact min_eq_right this
      have h3 : Finset.Ico (m * c) (min ((m + 1) * c) N) = ∅ := by
        apply Finset.Ico_eq_empty
        omega
      rw [h1, h3, Finset.sum_empty, add_zero, h2]

lemma fisherChunked_eq_fisherFull (grad : ℕ → ℕ → ℚ) (snr2 : ℕ → ℚ)
    (npix c : ℕ) (hc : 0 < c) (i j : ℕ) :
    fisherChunked grad snr2 npix c i j = fisherFull grad snr2 npix i j := by
  unfold fisherChunked fisherFull
  rw [chunk_sum_eq]
  congr 1
  rw [min_eq_right (npix_le_nChunks_mul npix c hc)]

/-- C1. After the Fisher matrix has been accumulated, every label whose
diagonal entry has absolute value strictly below `1.0` has its entire row and
column set to zero and its diagonal entry set to `1e-6`, and the entries whose
row and column are both unflagged are left unchanged by the regularization
step. -/
theorem crlb_C1_regularization (F : ℕ → ℕ → ℚ) (i j : ℕ) :
    regularize F i j =
      if diagFlag F i ∨ diagFlag F j then (if i = j then 1 / 1000000 else 0)
      else F i j := by
  unfold regularize setDiagStep zeroColsStep zeroRowsStep
  by_cases hi : diagFlag F i <;> by_cases hj : diagFlag F j <;>
    by_cases hij : i = j <;> simp_all

/-- C2. For every gradient matrix, SNR vector and positive chunk size, the
Fisher matrix produced by the chunked accumulation loop equals the unchunked
product `G·diag(SNR²)·Gᵀ` computed when chunking is disabled; in particular
any two positive chunk sizes yield the same Fisher matrix (exactly, over
exact arithmetic). -/
theorem crlb_C2_chunked_eq_full (grad : ℕ → ℕ → ℚ) (snr2 : ℕ → ℚ)
    (npix c₁ c₂ : ℕ) (hc₁ : 0 < c₁) (hc₂ : 0 < c₂) (i j : ℕ) :
    fisherChunked grad snr2 npix c₁ i j = fisherFull grad snr2 npix i j ∧
      fisherChunked grad snr2 npix c₁ i j = fisherChunked grad snr2 npix c₂ i j := by
  refine ⟨fisherChunked_eq_fisherFull grad snr2 npix c₁ hc₁ i j, ?_⟩
  rw [fisherChunked_eq_fisherFull grad snr2 npix c₁ hc₁ i j,
    fisherChunked_eq_fisherFull grad snr2 npix c₂ hc₂ i j]

/-- Witness for C2 at a concrete input: gradient `grad[i,p] = i + p`,
`snr2[p] = p`, 7 pixels, chunk sizes 2 (not dividing 7) and 5. -/
theorem crlb_C2_chunked_eq_full_witness :
    fisherChunked (fun i p => (i : ℚ) + p) (fun p => (p : ℚ)) 7 2 0 1
        = fisherFull (fun i p => (i : ℚ) + p) (fun p => (p : ℚ)) 7 0 1 ∧
      fisherChunked (fun i p => (i : ℚ) + p) (fun p => (p : ℚ)) 7 2 0 1
        = fisherChunked (fun i p => (i : ℚ) + p) (fun p => (p : ℚ)) 7 5 0 1 :=
  crlb_C2_chunked_eq_full (fun i p => (i : ℚ) + p) (fun p => (p : ℚ)) 7 2 5
    (by decide) (by decide) 0 1

lemma excludedAt_zeroPriorStep {L : ℕ} (l : Fin L) (F : Fin L → Fin L → ℚ) :
    excludedAt l (zeroPriorStep l F) := by
  constructor <;> intro k <;> by_cases h : k = l <;> simp [zeroPriorStep, h]

lemma excludedAt_applyOnePrior {L : ℕ} (teff l : Fin L)
    (F : Fin L → Fin L → ℚ) (e : Fin L × Option ℚ) (hk : e.1 ≠ l)
    (hF : excludedAt l F) : excludedAt l (applyOnePrior teff F e) := by
  obtain ⟨k, p⟩ := e
  match p with
  | none => exact hF
  | some pr0 =>
    simp only [applyOnePrior]
    by_cases hz : (if k = teff then pr0 / 100 else pr0) = 0
    · rw [if_pos hz]
      replace hk : k ≠ l := hk
      constructor <;> intro m
      · by_cases hm : m = l <;>
          simp [zeroPriorStep, hm, hk, Ne.symm hk, hF.1 m, hF.2]
      · by_cases hm : m = l <;>
          simp [zeroPriorStep, hm, hk, Ne.symm hk, hF.1, hF.2 m]
    · rw [if_neg hz]
      replace hk : k ≠ l := hk
      constructor <;> intro m
      · by_cases hm : m = l <;>
          simp [addPriorStep, hm, hk, Ne.symm hk, hF.1 m, hF.2]
      · by_cases hm : m = l <;>
          simp [addPriorStep, hm, hk, Ne.symm hk, hF.1, hF.2 m]

lemma excludedAt_applyPriors_of_not_key {L : ℕ} (teff l : Fin L)
    (ps : List (Fin L × Option ℚ)) (F : Fin L → Fin L → ℚ)
    (hk : l ∉ ps.map Prod.fst) (hF : excludedAt l F) :
    excludedAt l (applyPriors teff F ps) := by
  induction ps generalizing F with
  | nil => exact hF
  | cons e t ih =>
    simp only [List.map_cons, List.mem_cons] at hk
    push_neg at hk
    exact ih (applyOnePrior teff F e) hk.2
      (excludedAt_applyOnePrior teff l F e (fun h => hk.1 h.symm) hF)

lemma excludedAt_applyPriors {L : ℕ} (teff l : Fin L)
    (F : Fin L → Fin L → ℚ) (ps : List (Fin L × Option ℚ))
    (hmem : (l, some (0 : ℚ)) ∈ ps) (hnd : (ps.map Prod.fst).Nodup) :
    excludedAt l (applyPriors teff F ps) := by
  induction ps generalizing F with
  | nil => cases hmem
  | cons e t ih =>
    simp only [List.map_cons, List.nodup_cons] at hnd
    rcases List.mem_cons.1 hmem with he | ht
    · subst he
      have hstep : applyOnePrior teff F (l, some (0 : ℚ)) = zeroPriorStep l F := by
        simp [applyOnePrior]
      rw [show applyPriors teff F ((l, some (0:ℚ)) :: t)
            = applyPriors teff (applyOnePrior teff F (l, some (0:ℚ))) t from rfl,
        hstep]
      refine excludedAt_applyPriors_of_not_key teff l t _ ?_
        (excludedAt_zeroPriorStep l F)
      exact hnd.1
    · exact ih (applyOnePrior teff F e) ht hnd.2

lemma penrose1_diag_entry {L : ℕ} (F P : Fin L → Fin L → ℚ) (l : Fin L)
    (c : ℚ) (hc : c ≠ 0) (hrow : ∀ j, F l j = if j = l then c else 0)
    (hcol : ∀ i, F i l = if i = l then c else 0) (hP : penrose1 F P) :
    P l l = c⁻¹ := by
  have h := hP l l
  simp only [hrow, hcol, ite_mul, mul_ite, zero_mul, mul_zero,
    Finset.sum_ite_eq', Finset.mem_univ, if_true, if_pos rfl] at h
  have h2 : c * (c * P l l) = c * 1 := by ring_nf; ring_nf at h; linarith
  have h3 : c * P l l = 1 := mul_left_cancel₀ hc h2
  field_simp
  linarith

/-- C3. If some label is given a prior equal to zero, then for any matrix `P`
satisfying the (first) Penrose equation for the prior-augmented Fisher matrix
— as the output of `np.linalg.pinv` does — the diagonal entry of `P` at that label is
`10⁶`, so its CRLB table entry `sqrt(P[l,l])` equals `sqrt(1/1e-6) = 1000`;
the prior values of all other labels (arbitrary in `ps`) do not affect it. -/
theorem crlb_C3_zero_prior {L : ℕ} (teff l : Fin L) (F : Fin L → Fin L → ℚ)
    (ps : List (Fin L × Option ℚ)) (P : Fin L → Fin L → ℚ)
    (hmem : (l, some (0 : ℚ)) ∈ ps) (hnd : (ps.map Prod.fst).Nodup)
    (hP : penrose1 (applyPriors teff F ps) P) :
    P l l = 1000000 ∧
      Real.sqrt ((P l l : ℚ) : ℝ) = Real.sqrt (1 / (1 / 1000000)) ∧
      Real.sqrt ((P l l : ℚ) : ℝ) = 1000 := by
  have hex := excludedAt_applyPriors teff l F ps hmem hnd
  have hPll : P l l = (1 / 1000000 : ℚ)⁻¹ :=
    penrose1_diag_entry _ P l (1 / 1000000) (by norm_num) hex.1 hex.2 hP
  have h1 : P l l = 1000000 := by rw [hPll]; norm_num
  refine ⟨h1, ?_, ?_⟩ <;> rw [h1]
  · norm_num
  · rw [show ((1000000 : ℚ) : ℝ) = 1000 ^ 2 by norm_num]
    exact Real.sqrt_sq (by norm_num)

/-- Witness for C3 at the concrete input above. -/
theorem crlb_C3_zero_prior_witness :
    c3P 0 0 = 1000000 ∧
      Real.sqrt ((c3P 0 0 : ℚ) : ℝ) = Real.sqrt (1 / (1 / 1000000)) ∧
      Real.sqrt ((c3P 0 0 : ℚ) : ℝ) = 1000 :=
  crlb_C3_zero_prior 1 0 c3F c3ps c3P (by simp [c3ps]) (by simp [c3ps])
    (by
      intro i j
      fin_cases i <;> fin_cases j <;>
        simp [applyPriors, c3ps, c3F, c3P, applyOnePrior, zeroPriorStep,
          addPriorStep, Fin.sum_univ_two]
      all_goals norm_num)

lemma maskTable_map_fst (cutoff : ℚ) (t : Table) :
    (maskTable cutoff t).map Prod.fst = t.map Prod.fst := by
  induction t with
  | nil => rfl
  | cons r rs ih => simp [maskTable]

lemma maskTable_length (cutoff : ℚ) (t : Table) :
    (maskTable cutoff t).length = t.length := by
  simp [maskTable]

lemma maskTable_drop (cutoff : ℚ) (t : Table) (n : ℕ) :
    (maskTable cutoff t).drop n = maskTable cutoff (t.drop n) := by
  simp [maskTable, List.map_drop]

lemma sortCrlbMutate_take3 (cutoff : ℚ) (t : Table) :
    (sortCrlbMutate cutoff t).take 3 = t.take 3 := by
  unfold sortCrlbMutate
  rw [List.take_append_eq_append_take, List.take_take]
  simp only [Nat.min_self]
  by_cases h : 3 ≤ t.length
  · rw [List.length_take, min_eq_left h]
    simp
  · push_neg at h
    have h1 : t.take 3 = t := List.take_of_length_le (le_of_lt h)
    have h2 : (maskTable cutoff t).drop 3 = [] := by
      apply List.drop_eq_nil_of_le
      rw [maskTable_length]
      omega
    simp [h1, h2]

lemma sortCrlbMutate_drop3 (cutoff : ℚ) (t : Table) :
    (sortCrlbMutate cutoff t).drop 3 = maskTable cutoff (t.drop 3) := by
  unfold sortCrlbMutate
  rw [List.drop_append_eq_append_drop]
  have h1 : (t.take 3).drop 3 = [] := by
    apply List.drop_eq_nil_of_le
    simp
  rw [h1, List.nil_append, maskTable_drop]
  by_cases h : 3 ≤ t.length
  · rw [List.length_take, min_eq_left h]
    simp
  · push_neg at h
    have h2 : t.drop 3 = [] := List.drop_eq_nil_of_le (le_of_lt h)
    rw [h2]
    simp [maskTable]

lemma rowRetained_maskRow (cutoff : ℚ) (r : List (Option ℚ)) :
    rowRetained cutoff (maskRow cutoff r) = true ↔ ∃ v, some v ∈ r ∧ v < cutoff := by
  induction r with
  | nil => simp [rowRetained, maskRow, skipnaMin]
  | cons x xs ih =>
    cases x with
    | none =>
      have h1 : maskRow cutoff (none :: xs) = none :: maskRow cutoff xs := by
        simp [maskRow, maskEntry, pyGtCut]
      rw [h1]
      have h2 : rowRetained cutoff (none :: maskRow cutoff xs)
          = rowRetained cutoff (maskRow cutoff xs) := by
        simp [rowRetained, skipnaMin]
      rw [h2, ih]
      constructor
      · rintro ⟨v, hv, hlt⟩; exact ⟨v, List.mem_cons_of_mem _ hv, hlt⟩
      · rintro ⟨v, hv, hlt⟩
        rcases List.mem_cons.1 hv with h | h
        · cases h
        · exact ⟨v, h, hlt⟩
    | some v =>
      by_cases hv : cutoff < v
      · have h1 : maskRow cutoff (some v :: xs) = none :: maskRow cutoff xs := by
          simp [maskRow, maskEntry, pyGtCut, hv]
        rw [h1]
        have h2 : rowRetained cutoff (none :: maskRow cutoff xs)
            = rowRetained cutoff (maskRow cutoff xs) := by
          simp [rowRetained, skipnaMin]
        rw [h2, ih]
        constructor
        · rintro ⟨w, hw, hlt⟩; exact ⟨w, List.mem_cons_of_mem _ hw, hlt⟩
        · rintro ⟨w, hw, hlt⟩
          rcases List.mem_cons.1 hw with h | h
          · rcases Option.some_inj.1 h with rfl
            exact absurd hlt (lt_asymm hv)
          · exact ⟨w, h, hlt⟩
      · have h1 : maskRow cutoff (some v :: xs) = some v :: maskRow cutoff xs := by
          simp [maskRow, maskEntry, pyGtCut, hv]
        rw [h1]
        cases hm : skipnaMin (maskRow cutoff xs) with
        | none =>
          have h2 : rowRetained cutoff (some v :: maskRow cutoff xs)
              = decide (v < cutoff) := by
            simp [rowRetained, skipnaMin, hm]
          have h3 : ¬∃ w, some w ∈ xs ∧ w < cutoff := by
            rw [← ih]
            simp [rowRetained, hm]
          rw [h2]
          constructor
          · intro h
            exact ⟨v, List.mem_cons_self _ _, of_decide_eq_true h⟩
          · rintro ⟨w, hw, hlt⟩
            rcases List.mem_cons.1 hw with h | h
            · rcases Option.some_inj.1 h with rfl
              exact decide_eq_true hlt
            · exact absurd ⟨w, h, hlt⟩ h3
        | some m =>
          have h2 : rowRetained cutoff (some v :: maskRow cutoff xs)
              = decide (min v m < cutoff) := by
            simp [rowRetained, skipnaMin, hm]
          have h3 : (m < cutoff) ↔ ∃ w, some w ∈ xs ∧ w < cutoff := by
            rw [← ih]
            simp [rowRetained, hm]
          rw [h2]
          constructor
          · intro h
            rcases lt_or_le v m with hvm | hvm
            · exact ⟨v, List.mem_cons_self _ _, by
                have := of_decide_eq_true h
                rwa [min_eq_left (le_of_lt hvm)] at this⟩
            · have := of_decide_eq_true h
              rw [min_eq_right hvm] at this
              rcases h3.1 this with ⟨w, hw, hlt⟩
              exact ⟨w, List.mem_cons_of_mem _ hw, hlt⟩
          · rintro ⟨w, hw, hlt⟩
            apply decide_eq_true
            rcases List.mem_cons.1 hw with h | h
            · rcases Option.some_inj.1 h with rfl
              exact lt_of_le_of_lt (min_le_left _ _) hlt
            · exact lt_of_le_of_lt (min_le_right _ _) (h3.2 ⟨w, h, hlt⟩)

lemma sortRows_map_fst_mem (col : ℕ) (rows : Table) (x : String) :
    x ∈ (sortRows col rows).map Prod.fst ↔ x ∈ rows.map Prod.fst := by
  unfold sortRows
  constructor <;> intro h
  · exact ((List.mergeSort_perm rows _).map Prod.fst).mem_iff.1 h
  · exact ((List.mergeSort_perm rows _).map Prod.fst).mem_iff.2 h

lemma maskRow_getD (cutoff : ℚ) (r : List (Option ℚ)) (c : ℕ) :
    (maskRow cutoff r).getD c none = maskEntry cutoff (r.getD c none) := by
  induction r generalizing c with
  | nil => simp [maskRow, maskEntry, pyGtCut]
  | cons x xs ih =>
    cases c with
    | zero => simp [maskRow]
    | succ c => simpa [maskRow] using ih c

lemma sortCrlb_snd (t : Table) (cutoff : ℚ) (sortBy : String)
    (colNames : List String) :
    (sortCrlb t cutoff sortBy colNames).2 = sortCrlbMutate cutoff t := by
  unfold sortCrlb
  cases h : resolveSortBy sortBy colNames (sortCrlbMutate cutoff t) <;> simp [h]

lemma length_sortCrlbMutate (cutoff : ℚ) (t : Table) :
    (sortCrlbMutate cutoff t).length = t.length := by
  unfold sortCrlbMutate
  rw [List.length_append, List.length_take, List.length_drop, maskTable_length]
  omega

lemma rowAt_sortCrlbMutate (cutoff : ℚ) (t : Table) (i : ℕ) :
    (sortCrlbMutate cutoff t).getD i ("", [])
      = if 3 ≤ i ∧ i < t.length
        then ((t.getD i ("", [])).1, maskRow cutoff (t.getD i ("", [])).2)
        else t.getD i ("", []) := by
  unfold sortCrlbMutate
  simp only [List.getD_eq_getElem?_getD, List.getElem?_append]
  by_cases hcond : i < (List.take 3 t).length
  · have hi3 : i < 3 := by rw [List.length_take] at hcond; omega
    have hnot : ¬(3 ≤ i ∧ i < t.length) := fun hq => by omega
    rw [if_pos hcond, List.getElem?_take, if_pos hi3, if_neg hnot]
  · rw [if_neg hcond]
    rw [List.length_take] at hcond
    push_neg at hcond
    rw [List.getElem?_drop]
    by_cases hil : i < t.length
    · have h3i : 3 ≤ i := by omega
      rw [if_pos ⟨h3i, hil⟩]
      have hA : (List.take 3 t).length = 3 := by rw [List.length_take]; omega
      rw [hA]
      have hidx : 3 + (i - 3) = i := by omega
      rw [hidx]
      unfold maskTable
      rw [List.getElem?_map]
      cases hr : t[i]? with
      | none =>
        rw [List.getElem?_eq_none_iff] at hr
        omega
      | some r => simp
    · rw [if_neg (fun hq => absurd hq.2 hil)]
      have h1 : t[i]? = none := List.getElem?_eq_none (by omega)
      have h2 : (maskTable cutoff t)[3 + (i - (List.take 3 t).length)]? = none := by
        apply List.getElem?_eq_none
        rw [maskTable_length, List.length_take]
        omega
      rw [h1, h2]

lemma entryAt_sortCrlbMutate (cutoff : ℚ) (t : Table) (i c : ℕ) :
    entryAt (sortCrlbMutate cutoff t) i c
      = if 3 ≤ i ∧ pyGtCut cutoff (entryAt t i c) = true then none
        else entryAt t i c := by
  unfold entryAt
  rw [rowAt_sortCrlbMutate]
  by_cases h : 3 ≤ i ∧ i < t.length
  · rw [if_pos h]
    simp only
    rw [maskRow_getD]
    unfold maskEntry
    by_cases hg : pyGtCut cutoff ((t.getD i ("", [])).2.getD c none) = true
    · rw [if_pos hg, if_pos ⟨h.1, hg⟩]
    · rw [if_neg hg, if_neg (fun hc => absurd hc.2 hg)]
  · rw [if_neg h]
    rcases Decidable.not_and_iff_or_not.1 h with h3 | hlen
    · rw [if_neg (fun hc => absurd hc.1 h3)]
    · push_neg at hlen
      have h1 : t.getD i ("", []) = ("", []) := by
        rw [List.getD_eq_getElem?_getD, List.getElem?_eq_none (by omega)]
        rfl
      rw [h1]
      simp [pyGtCut]

/-- C4 (amended).  A label beyond the first three is retained in the output
of `sort_crlb` if and only if its precision is *strictly* below the cutoff in
at least one column — the cross-column-minimum policy, with a strict
comparison.  (The `≤` reading of the claim fails exactly on the boundary, see the
counterexample.) -/
theorem sort_crlb_C4_retention (t : Table) (cutoff : ℚ) (colNames : List String)
    (r : TableRow) (hr : r ∈ t.drop 3) (hnd : (t.map Prod.fst).Nodup)
    (out : Table) (hout : (sortCrlb t cutoff "default" colNames).1 = Except.ok out) :
    r.1 ∈ out.map Prod.fst ↔ ∃ v, some v ∈ r.2 ∧ v < cutoff := by
  unfold sortCrlb at hout
  cases hres : resolveSortBy "default" colNames (sortCrlbMutate cutoff t) with
  | error e => rw [hres] at hout; cases hout
  | ok col =>
    rw [hres] at hout
    simp only [Except.ok.injEq] at hout
    subst hout
    rw [List.map_append, List.mem_append, sortRows_map_fst_mem]
    unfold retainedRows
    rw [sortCrlbMutate_take3, sortCrlbMutate_drop3]
    have hnods : ((t.take 3).map Prod.fst ++ (t.drop 3).map Prod.fst).Nodup := by
      rw [← List.map_append, List.take_append_drop]
      exact hnd
    rw [List.nodup_append] at hnods
    have hnotin : r.1 ∉ (t.take 3).map Prod.fst := by
      intro hmem
      exact hnods.2.2 hmem (List.mem_map_of_mem Prod.fst hr)
    constructor
    · rintro (h | h)
      · exact absurd h hnotin
      · rcases List.mem_map.1 h with ⟨row, hrow, hfst⟩
        rcases List.mem_filter.1 hrow with ⟨hrow', hret⟩
        rcases List.mem_map.1 hrow' with ⟨s, hs, hsrow⟩
        have hseq : s = r := by
          apply List.inj_on_of_nodup_map hnods.2.1 hs hr
          rw [← hfst, ← hsrow]
        subst hseq
        rw [← hsrow] at hret
        simp only at hret
        exact (rowRetained_maskRow cutoff s.2).1 hret
    · intro h
      right
      have hmem : (r.1, maskRow cutoff r.2) ∈ maskTable cutoff (t.drop 3) := by
        unfold maskTable
        exact List.mem_map_of_mem _ hr
      have hfil : (r.1, maskRow cutoff r.2)
          ∈ (maskTable cutoff (t.drop 3)).filter
              (fun row => rowRetained cutoff row.2) :=
        List.mem_filter.2 ⟨hmem, (rowRetained_maskRow cutoff r.2).2 h⟩
      exact List.mem_map.2 ⟨_, hfil, rfl⟩

/-- C4 counterexample.  With cutoff 1, the `Fe` precision equals the cutoff
exactly: it "meets the cutoff" in its only column (`pyGtCut` does not flag
it, so it survives masking), yet `sort_crlb` drops it, because retention
requires the row minimum to be strictly below the cutoff. -/
theorem sort_crlb_C4_counterexample :
    (sortCrlb c4T 1 "default" ["c0"]).1
        = Except.ok [("Teff", [some 10]), ("logg", [some 10]), ("rv", [some 10])] ∧
      pyGtCut 1 (some 1) = false ∧
      "Fe" ∉ ([("Teff", [some (10:ℚ)]), ("logg", [some 10]),
        ("rv", [some 10])] : Table).map Prod.fst := by
  refine ⟨?_, by simp [pyGtCut], by simp⟩
  simp [c4T, sortCrlb, sortCrlbMutate, maskTable, maskRow, maskEntry, pyGtCut,
    resolveSortBy, colNaCount, argminIdx, argminAux, rowRetained, skipnaMin,
    retainedRows, sortRows, List.mergeSort_nil]

/-- Witness for C4 (amended) at a concrete input: with cutoff 2 the `Fe` row
`[1]` is strictly below the cutoff and is retained. -/
theorem sort_crlb_C4_retention_witness :
    "Fe" ∈ c4T.map Prod.fst ↔ ∃ v, some v ∈ [some (1 : ℚ)] ∧ v < 2 :=
  sort_crlb_C4_retention c4T 2 ["c0"] ("Fe", [some 1]) (by simp [c4T])
    (by simp [c4T]) c4T
    (by
      simp [c4T, sortCrlb, sortCrlbMutate, maskTable, maskRow, maskEntry,
        pyGtCut, resolveSortBy, colNaCount, argminIdx, argminAux, rowRetained,
        skipnaMin, retainedRows, sortRows, List.mergeSort_singleton])

/-- C5 is a code bug: for every `sort_by` other than `"default"`, line 113
compares the string `sort_by` with the *list* of columns (`==`, not `in`), a
comparison that is always `False` in Python, so the `assert False` of line
116 fires even when `sort_by` names an existing column. -/
theorem sort_crlb_C5_nondefault_fails (t : Table) (cutoff : ℚ)
    (sortBy : String) (colNames : List String) (h : sortBy ≠ "default") :
    (sortCrlb t cutoff sortBy colNames).1
      = Except.error (sortBy ++ " not in CR_Gradients_File") := by
  unfold sortCrlb resolveSortBy
  simp [h, pyEq]

/-- Witness for C5: the column `"c0"` is present among the columns, yet the
call fails with the `AssertionError` message. -/
theorem sort_crlb_C5_nondefault_fails_witness :
    "c0" ∈ ["c0"] ∧
      (sortCrlb c4T 1 "c0" ["c0"]).1
        = Except.error ("c0" ++ " not in CR_Gradients_File") :=
  ⟨by simp, sort_crlb_C5_nondefault_fails c4T 1 "c0" ["c0"] (by simp)⟩

/-- C8.  Whenever `sort_crlb` returns a table, its first three rows are the
first three rows of the input, in input order, independent of the cutoff
(the filtering never touches them). -/
theorem sort_crlb_C8_first_three (t : Table) (cutoff : ℚ) (sortBy : String)
    (colNames : List String) (out : Table) (h3 : 3 ≤ t.length)
    (hout : (sortCrlb t cutoff sortBy colNames).1 = Except.ok out) :
    out.take 3 = t.take 3 := by
  unfold sortCrlb at hout
  cases hres : resolveSortBy sortBy colNames (sortCrlbMutate cutoff t) with
  | error e => rw [hres] at hout; cases hout
  | ok col =>
    rw [hres] at hout
    simp only [Except.ok.injEq] at hout
    subst hout
    have hl : ((sortCrlbMutate cutoff t).take 3).length = 3 := by
      rw [List.length_take, length_sortCrlbMutate, min_eq_left h3]
    rw [List.take_append_eq_append_take, List.take_take, Nat.min_self, hl,
      sortCrlbMutate_take3]
    simp

/-- Witness for C8: with cutoff 1 the `Fe` row is dropped, yet the returned
table starts with the three protected rows of the input, in order. -/
theorem sort_crlb_C8_first_three_witness :
    ([("Teff", [some (10:ℚ)]), ("logg", [some 10]), ("rv", [some 10])] :
        Table).take 3 = c4T.take 3 :=
  sort_crlb_C8_first_three c4T 1 "default" ["c0"] _ (by simp [c4T])
    (by
      simp [c4T, sortCrlb, sortCrlbMutate, maskTable, maskRow, maskEntry,
        pyGtCut, resolveSortBy, colNaCount, argminIdx, argminAux, rowRetained,
        skipnaMin, retainedRows, sortRows, List.mergeSort_nil])

/-- C10 (amended).  `sort_crlb` mutates the table of the caller in place: row
labels are unchanged, but an entry in a row beyond the first three that
exceeds the cutoff is set to NaN; all other entries are unchanged.  This
holds on the error path of the `sort_by` branch as well, since the masking
happens first. -/
theorem sort_crlb_C10_mutation (t : Table) (cutoff : ℚ) (sortBy : String)
    (colNames : List String) :
    (sortCrlb t cutoff sortBy colNames).2.map Prod.fst = t.map Prod.fst ∧
      ∀ i c, entryAt (sortCrlb t cutoff sortBy colNames).2 i c
        = if 3 ≤ i ∧ pyGtCut cutoff (entryAt t i c) = true then none
          else entryAt t i c := by
  rw [sortCrlb_snd]
  constructor
  · unfold sortCrlbMutate
    rw [List.map_append, maskTable_drop, maskTable_map_fst, ← List.map_append,
      List.take_append_drop]
  · intro i c
    exact entryAt_sortCrlbMutate cutoff t i c

/-- C10 counterexample.  `sort_crlb` does not leave the input table of the caller
unchanged: with cutoff 2, the `Fe` entry 3 of the input is NaN after the
call. -/
theorem sort_crlb_C10_counterexample :
    (sortCrlb c10T 2 "default" ["c0"]).2
        = [("Teff", [some 10]), ("logg", [some 10]), ("rv", [some 10]),
            ("Fe", [none])] ∧
      (sortCrlb c10T 2 "default" ["c0"]).2 ≠ c10T := by
  have h : (sortCrlb c10T 2 "default" ["c0"]).2
      = [("Teff", [some 10]), ("logg", [some 10]), ("rv", [some 10]),
          ("Fe", [none])] := by
    rw [sortCrlb_snd]
    simp [c10T, sortCrlbMutate, maskTable, maskRow, maskEntry, pyGtCut]
    norm_num
  refine ⟨h, ?_⟩
  rw [h]
  simp [c10T]

/-- C6 is a code bug: the guard `isinstance(priors, (None, dict))` of
`crlb.py` line 66 raises `TypeError` for *every* value of `priors`, because
the first tuple entry is the value `None`, not a type, and Python validates
it before looking at `dict` — so the prior-handling step fails even for
`priors=None` or a valid dict, contradicting the error message of line 67
itself. -/
theorem crlb_C6_priors_guard_always_raises (typeName : String) :
    priorsGuardCrlbPy typeName
      = Except.error "isinstance() arg 2 must be a type or tuple of types" :=
  rfl

lemma divGradRow_negInf (r : List ℚ) :
    divGradRow r ExtQ.negInf = some (r.map (fun _ => ExtQ.fin 0)) := by
  unfold divGradRow
  induction r with
  | nil => rfl
  | cons a l ih =>
    rw [List.mapM_cons, ih]
    rfl

lemma divGradRow_fin (r : List ℚ) (q : ℚ) (hq : q ≠ 0) :
    divGradRow r (ExtQ.fin q) = some (r.map (fun a => ExtQ.fin (a / q))) := by
  unfold divGradRow
  induction r with
  | nil => rfl
  | cons a l ih =>
    rw [List.mapM_cons, ih]
    simp only [divByExt, if_neg hq]
    rfl

lemma divGradRow_of_mem_replaceZero (r : List ℚ) {d : ExtQ} {l : List ℚ}
    (hd : d ∈ replaceZeroDx l) :
    divGradRow r d = some (divGradRowTotal r d) := by
  rcases List.mem_map.1 hd with ⟨q, hq, hfd⟩
  by_cases hq0 : q = 0
  · rw [← hfd, if_pos hq0]
    exact divGradRow_negInf r
  · rw [← hfd, if_neg hq0]
    exact divGradRow_fin r q hq0

lemma mapM_eq_map {α β : Type} (f : α → Option β) (g : α → β) (l : List α)
    (h : ∀ p ∈ l, f p = some (g p)) : l.mapM f = some (l.map g) := by
  induction l with
  | nil => rfl
  | cons a l ih =>
    rw [List.mapM_cons, h a (List.mem_cons_self a l),
      ih (fun p hp => h p (List.mem_cons_of_mem a hp))]
    rfl

lemma length_scaleDx (labelNames : List String) (dx : List ℚ) :
    (scaleDx labelNames dx).length = min labelNames.length dx.length := by
  simp [scaleDx]

lemma length_rawDx (labelVals : List (List ℚ)) :
    (rawDx labelVals).length = labelVals.length := by
  simp [rawDx]

lemma length_gradRows (spectra : List (List ℚ)) (n : ℕ) :
    (gradRows spectra n).length = n := by
  simp [gradRows]

lemma length_gradDx (spectra : List (List ℚ)) (labelNames : List String)
    (labelVals : List (List ℚ)) (symmetric : Bool) :
    (gradDx spectra labelNames labelVals symmetric).length
      = labelVals.length := by
  unfold gradDx
  split_ifs <;> simp [rawDx, rawDxAsym1, rawDxAsym2]

lemma length_gradNum (spectra : List (List ℚ)) (labelNames : List String)
    (symmetric : Bool) :
    (gradNum spectra labelNames symmetric).length = labelNames.length := by
  unfold gradNum
  split_ifs <;> simp [gradRows, gradRowsAsym1, gradRowsAsym2]

lemma calc_gradient_eq_of_checks (spectra : List (List ℚ))
    (labelNames : List String) (labelVals : List (List ℚ))
    (symmetric ref_included : Bool)
    (h : gradChecksPass spectra.length labelNames.length symmetric
      ref_included = true) :
    calc_gradient spectra labelNames labelVals symmetric ref_included
      = Except.ok (gradFinish labelNames (gradNum spectra labelNames symmetric)
          (gradDx spectra labelNames labelVals symmetric)) := by
  unfold gradChecksPass at h
  unfold calc_gradient gradNum gradDx
  cases symmetric with
  | true =>
    simp only [eq_self_iff_true, if_true] at h ⊢
    simp only [Bool.and_eq_true, decide_eq_true_eq] at h
    rw [if_neg (not_not_intro h.1), if_neg (not_not_intro h.2)]
  | false =>
    simp only [Bool.false_eq_true, if_false] at h ⊢
    simp only [Bool.and_eq_true, Bool.or_eq_true, decide_eq_true_eq] at h
    have hr : ¬(ref_included = false) := by
      rw [h.1]
      simp
    rw [if_neg hr]
    by_cases hc1 : (spectra.length : ℤ) - 1 = labelNames.length
    · simp only [if_pos hc1]
    · have hc2 : (spectra.length : ℤ) - 1 = 2 * labelNames.length :=
        h.2.resolve_left hc1
      simp only [if_neg hc1, if_pos hc2]

lemma gradFinish_zero_step (labelNames : List String) (G : List (List ℚ))
    (D : List ℚ) (i : ℕ) (hG : G.length = labelNames.length)
    (hD : D.length = labelNames.length) (hi : i < labelNames.length)
    (hz : (scaleDx labelNames D).getD i 1 = 0) :
    ∃ M, gradFinish labelNames G D = some M ∧
      M.getD i [] = (G.getD i []).map (fun _ => ExtQ.fin 0) := by
  unfold gradFinish
  have hmap : (List.zip G (replaceZeroDx (scaleDx labelNames D))).mapM
      (fun p => divGradRow p.1 p.2)
      = some ((List.zip G (replaceZeroDx (scaleDx labelNames D))).map
          (fun p => divGradRowTotal p.1 p.2)) := by
    apply mapM_eq_map
    intro p hp
    exact divGradRow_of_mem_replaceZero p.1 (List.of_mem_zip hp).2
  refine ⟨_, hmap, ?_⟩
  have hscaled : (scaleDx labelNames D).length = labelNames.length := by
    rw [length_scaleDx, hD, min_self]
  have hdxlen : (replaceZeroDx (scaleDx labelNames D)).length
      = labelNames.length := by
    unfold replaceZeroDx
    rw [List.length_map, hscaled]
  have hziplen : (List.zip G (replaceZeroDx (scaleDx labelNames D))).length
      = labelNames.length := by
    rw [List.length_zip, hG, hdxlen, min_self]
  have hi' : i < (List.zip G (replaceZeroDx (scaleDx labelNames D))).length := by
    omega
  rw [List.getD_eq_getElem?_getD, List.getElem?_map,
    List.getElem?_eq_getElem hi', Option.map_some', Option.getD_some,
    List.getElem_zip]
  have hiscaled : i < (scaleDx labelNames D).length := by
    omega
  have hib : i < (replaceZeroDx (scaleDx labelNames D)).length := by
    rw [hdxlen]
    exact hi
  have hidx : (replaceZeroDx (scaleDx labelNames D))[i] = ExtQ.negInf := by
    unfold replaceZeroDx
    rw [List.getElem_map]
    rw [List.getD_eq_getElem _ _ hiscaled] at hz
    rw [hz]
    rfl
  rw [hidx]
  have higr : i < G.length := by
    rw [hG]
    exact hi
  rw [List.getD_eq_getElem _ _ higr]
  rfl

/-- C7 (amended).  For every input to `calc_gradient` — symmetric or
asymmetric mode — that passes the mode selection and shape checks, when the
finite-difference step size of some label is zero the function raises no
division error: the zero step is replaced by `-inf` before the division, and
the returned derivative for that label is (signed) *zero* at every pixel,
the IEEE quotient of a finite difference by `-inf` (not negative infinity,
which is what the zero step is replaced with). -/
theorem calc_gradient_C7_zero_step (spectra : List (List ℚ))
    (labelNames : List String) (labelVals : List (List ℚ))
    (symmetric ref_included : Bool) (i : ℕ)
    (hcheck : gradChecksPass spectra.length labelNames.length symmetric
      ref_included = true)
    (hv : labelVals.length = labelNames.length)
    (hi : i < labelNames.length)
    (hz : (scaleDx labelNames
      (gradDx spectra labelNames labelVals symmetric)).getD i 1 = 0) :
    ∃ M, calc_gradient spectra labelNames labelVals symmetric ref_included
        = Except.ok (some M) ∧
      M.getD i [] = ((gradNum spectra labelNames symmetric).getD i []).map
        (fun _ => ExtQ.fin 0) := by
  rw [calc_gradient_eq_of_checks spectra labelNames labelVals symmetric
    ref_included hcheck]
  obtain ⟨M, hM, hrow⟩ := gradFinish_zero_step labelNames
    (gradNum spectra labelNames symmetric)
    (gradDx spectra labelNames labelVals symmetric) i
    (length_gradNum spectra labelNames symmetric)
    (by rw [length_gradDx, hv]) hi hz
  exact ⟨M, by rw [hM], hrow⟩

/-- C7 counterexample.  At the concrete zero-step input (symmetric mode with
the reference included), the derivative row is `[0, 0]`, not `[-inf, -inf]`
as the claim states. -/
theorem calc_gradient_C7_counterexample :
    calc_gradient c7spectra c7names c7vals true true
        = Except.ok (some [[ExtQ.fin 0, ExtQ.fin 0]]) ∧
      [[ExtQ.fin 0, ExtQ.fin 0]] ≠ [[ExtQ.negInf, ExtQ.negInf]] := by
  constructor
  · have h1 : rawDx c7vals = [0] := by
      simp [rawDx, c7vals, List.range_succ]
    have h2 : scaleDx c7names (rawDx c7vals) = [0] := by
      rw [h1]
      simp [scaleDx, c7names]
    have h3 : replaceZeroDx (scaleDx c7names (rawDx c7vals))
        = [ExtQ.negInf] := by
      rw [h2]
      simp [replaceZeroDx]
    have h4 : gradRows c7spectra 1 = [[1, 2]] := by
      simp [gradRows, c7spectra, List.range_succ]
    have h5 : divGradRow [(1 : ℚ), 2] ExtQ.negInf
        = some [ExtQ.fin 0, ExtQ.fin 0] := by
      unfold divGradRow
      rw [List.mapM_cons, List.mapM_cons]
      rfl
    have hnum : gradNum c7spectra c7names true = [[1, 2]] := by
      unfold gradNum
      rw [if_pos rfl, show c7names.length = 1 from rfl]
      exact h4
    have hdx : gradDx c7spectra c7names c7vals true = rawDx c7vals := by
      unfold gradDx
      rw [if_pos rfl]
    rw [calc_gradient_eq_of_checks c7spectra c7names c7vals true true
      (by decide)]
    rw [hnum, hdx]
    unfold gradFinish
    rw [h3]
    rw [show List.zip [[(1 : ℚ), 2]] [ExtQ.negInf]
      = [([(1 : ℚ), 2], ExtQ.negInf)] from rfl]
    rw [List.mapM_cons]
    simp only [h5]
    rfl
  · decide

/-- Witness for C7 (amended) at a concrete zero-step input exercising the
asymmetric branch: one label `"X"` with equal reference and perturbed values
(zero step), reference plus one perturbed spectrum of two pixels. -/
theorem calc_gradient_C7_zero_step_witness :
    ∃ M, calc_gradient [[0, 0], [1, 2]] ["X"] [[5, 5]] false true
        = Except.ok (some M) ∧
      M.getD 0 [] = ((gradNum [[0, 0], [1, 2]] ["X"] false).getD 0 []).map
        (fun _ => ExtQ.fin 0) :=
  calc_gradient_C7_zero_step [[0, 0], [1, 2]] ["X"] [[5, 5]] false true 0
    (by decide) (by decide) (by decide)
    (by norm_num [gradDx, rawDxAsym1, scaleDx, List.range_succ])

lemma alphaAdjust_labels (useAlpha : Bool) (ref : RefSp) (name : String) :
    (alphaAdjust useAlpha ref name).labels = ref.labels := by
  unfold alphaAdjust zero_gradients
  split_ifs <;> rfl

lemma alphaAdjust_gradients_ne (useAlpha : Bool) (ref : RefSp) (name k : String)
    (hk : k ≠ name) :
    (alphaAdjust useAlpha ref name).gradients k = ref.gradients k := by
  unfold alphaAdjust zero_gradients
  split_ifs <;> simp [hk]

lemma alphaRestore_eq (useAlpha : Bool) (ref : RefSp) (name : String)
    (backup : List (List ℚ)) (hb : ref.gradients name = some backup) :
    { alphaAdjust useAlpha ref name with
      gradients := fun k =>
        if k = name then some backup
        else (alphaAdjust useAlpha ref name).gradients k } = ref := by
  cases ref with
  | mk labs grads =>
    have hlab := alphaAdjust_labels useAlpha ⟨labs, grads⟩ name
    simp only [RefSp.mk.injEq]
    refine ⟨hlab, ?_⟩
    funext k
    by_cases hk : k = name
    · rw [if_pos hk, hk, ← hb]
    · rw [if_neg hk]
      exact alphaAdjust_gradients_ne useAlpha ⟨labs, grads⟩ name k hk

/-- C9.  The instrument loop of `calc_crlb` restores the per-instrument
gradient data of the reference on every exit path: whatever it returns —
the accumulated gradient/SNR lists or the `KeyError`/`ValueError` of lines
35/38 — the reference state at exit equals the state at entry.  (The code
after the loop never writes `reference.gradients`: the Fisher accumulation,
regularization, priors and pseudo-inverse all operate on local arrays.) -/
theorem crlb_C9_gradients_restored (useAlpha : Bool) (ref : RefSp)
    (insts : List Inst) (gradAcc : List (List (List ℚ)))
    (snrAcc : List (List ℚ)) :
    (calcCrlbLoop useAlpha ref insts gradAcc snrAcc).2 = ref := by
  induction insts generalizing ref gradAcc snrAcc with
  | nil => rfl
  | cons inst rest ih =>
    unfold calcCrlbLoop
    cases hb : ref.gradients inst.name with
    | none => rfl
    | some backup =>
      dsimp only
      by_cases hα : useAlpha = true ∧ "alpha" ∉ ref.labels
      · rw [if_pos hα]
      · rw [if_neg hα, ih]
        exact alphaRestore_eq useAlpha ref inst.name backup hb

end ChemICalc
